import Mathlib

/-!
Verification of the Explore state codec and query pipeline
(`public/app/features/explore/state/... explore.ts` utilities).

The source manipulates JSON values that arrive through
`JSON.parse(decodeURI(text))`; we embed the code at the JSON-value
level: a `JVal` is the result of a successful parse (`Option JVal`
models the result of `safeParseJson`, `none` standing for empty input
or a parse failure).  JavaScript exceptions thrown past a function's
boundary are modelled with `Except Unit`.
-/

/-- A JavaScript/JSON value.  `undefined` is never produced by `JSON.parse`
but arises from missing-property and out-of-bounds accesses. -/
inductive JVal where
  | null
  | undefined
  | bool (b : Bool)
  | num (n : Int)
  | str (s : String)
  | arr (elems : List JVal)
  | obj (fields : List (String × JVal))

mutual

/-- Structural equality test for `JVal` (the derive handler does not
support the nested inductive; mutual structural recursion keeps it
kernel-reducible). -/
def JVal.beq : JVal → JVal → Bool
  | .null, .null => true
  | .undefined, .undefined => true
  | .bool a, .bool b => a == b
  | .num a, .num b => a == b
  | .str a, .str b => a == b
  | .arr as, .arr bs => JVal.beqList as bs
  | .obj fs, .obj gs => JVal.beqFields fs gs
  | _, _ => false

def JVal.beqList : List JVal → List JVal → Bool
  | [], [] => true
  | a :: as, b :: bs => JVal.beq a b && JVal.beqList as bs
  | _, _ => false

def JVal.beqFields : List (String × JVal) → List (String × JVal) → Bool
  | [], [] => true
  | (k, v) :: fs, (l, w) :: gs => k == l && JVal.beq v w && JVal.beqFields fs gs
  | _, _ => false

end

mutual

theorem JVal.beq_iff : (a b : JVal) → (JVal.beq a b = true ↔ a = b)
  | .null, .null => by simp [JVal.beq]
  | .undefined, .undefined => by simp [JVal.beq]
  | .bool a, .bool b => by simp [JVal.beq]
  | .num a, .num b => by simp [JVal.beq]
  | .str a, .str b => by simp [JVal.beq]
  | .arr as, .arr bs => by simp [JVal.beq, JVal.beqList_iff as bs]
  | .obj fs, .obj gs => by simp [JVal.beq, JVal.beqFields_iff fs gs]
  | .null, .undefined => by simp [JVal.beq]
  | .null, .bool _ => by simp [JVal.beq]
  | .null, .num _ => by simp [JVal.beq]
  | .null, .str _ => by simp [JVal.beq]
  | .null, .arr _ => by simp [JVal.beq]
  | .null, .obj _ => by simp [JVal.beq]
  | .undefined, .null => by simp [JVal.beq]
  | .undefined, .bool _ => by simp [JVal.beq]
  | .undefined, .num _ => by simp [JVal.beq]
  | .undefined, .str _ => by simp [JVal.beq]
  | .undefined, .arr _ => by simp [JVal.beq]
  | .undefined, .obj _ => by simp [JVal.beq]
  | .bool _, .null => by simp [JVal.beq]
  | .bool _, .undefined => by simp [JVal.beq]
  | .bool _, .num _ => by simp [JVal.beq]
  | .bool _, .str _ => by simp [JVal.beq]
  | .bool _, .arr _ => by simp [JVal.beq]
  | .bool _, .obj _ => by simp [JVal.beq]
  | .num _, .null => by simp [JVal.beq]
  | .num _, .undefined => by simp [JVal.beq]
  | .num _, .bool _ => by simp [JVal.beq]
  | .num _, .str _ => by simp [JVal.beq]
  | .num _, .arr _ => by simp [JVal.beq]
  | .num _, .obj _ => by simp [JVal.beq]
  | .str _, .null => by simp [JVal.beq]
  | .str _, .undefined => by simp [JVal.beq]
  | .str _, .bool _ => by simp [JVal.beq]
  | .str _, .num _ => by simp [JVal.beq]
  | .str _, .arr _ => by simp [JVal.beq]
  | .str _, .obj _ => by simp [JVal.beq]
  | .arr _, .null => by simp [JVal.beq]
  | .arr _, .undefined => by simp [JVal.beq]
  | .arr _, .bool _ => by simp [JVal.beq]
  | .arr _, .num _ => by simp [JVal.beq]
  | .arr _, .str _ => by simp [JVal.beq]
  | .arr _, .obj _ => by simp [JVal.beq]
  | .obj _, .null => by simp [JVal.beq]
  | .obj _, .undefined => by simp [JVal.beq]
  | .obj _, .bool _ => by simp [JVal.beq]
  | .obj _, .num _ => by simp [JVal.beq]
  | .obj _, .str _ => by simp [JVal.beq]
  | .obj _, .arr _ => by simp [JVal.beq]

theorem JVal.beqList_iff : (as bs : List JVal) → (JVal.beqList as bs = true ↔ as = bs)
  | [], [] => by simp [JVal.beqList]
  | a :: as, b :: bs => by
    simp [JVal.beqList, JVal.beq_iff a b, JVal.beqList_iff as bs]
  | [], _ :: _ => by simp [JVal.beqList]
  | _ :: _, [] => by simp [JVal.beqList]

theorem JVal.beqFields_iff :
    (fs gs : List (String × JVal)) → (JVal.beqFields fs gs = true ↔ fs = gs)
  | [], [] => by simp [JVal.beqFields]
  | (k, v) :: fs, (l, w) :: gs => by
    simp [JVal.beqFields, JVal.beq_iff v w, JVal.beqFields_iff fs gs,
      Bool.and_eq_true, and_assoc]
  | [], _ :: _ => by simp [JVal.beqFields]
  | _ :: _, [] => by simp [JVal.beqFields]

end

instance : BEq JVal := ⟨JVal.beq⟩

instance : LawfulBEq JVal where
  eq_of_beq h := (JVal.beq_iff _ _).mp h
  rfl := (JVal.beq_iff _ _).mpr rfl

instance : DecidableEq JVal :=
  fun a b => decidable_of_iff (JVal.beq a b = true) (JVal.beq_iff a b)

/-- JavaScript truthiness of a value (`!!v`). -/
def jsTruthy : JVal → Bool
  | .null => false
  | .undefined => false
  | .bool b => b
  | .num n => n != 0
  | .str s => s != ""
  | .arr _ => true
  | .obj _ => true

/-- JavaScript falsiness (`!v`). -/
def jsFalsy (v : JVal) : Bool := !jsTruthy v

/-- Property lookup in an object's field list (first binding wins,
missing property gives `undefined`). -/
def objGet (fs : List (String × JVal)) (p : String) : JVal :=
  match fs.find? (fun f => f.1 == p) with
  | some f => f.2
  | none => .undefined

/-- Whether an object's field list carries a property. -/
def objHas (fs : List (String × JVal)) (p : String) : Bool :=
  (fs.find? (fun f => f.1 == p)).isSome

/-- JavaScript `v.hasOwnProperty(p)`.  Throws a `TypeError` when `v` is
`null` or `undefined`; on primitives the property is looked up on the
boxed value (strings and arrays own `length` and their index keys). -/
def jsHasOwnProperty : JVal → String → Except Unit Bool
  | .null, _ => .error ()
  | .undefined, _ => .error ()
  | .obj fs, p => .ok (objHas fs p)
  | .str s, p => .ok (p == "length" || (p.toNat?.map (fun i => decide (i < s.length))).getD false)
  | .arr xs, p => .ok (p == "length" || (p.toNat?.map (fun i => decide (i < xs.length))).getD false)
  | _, _ => .ok false

/-- JavaScript `v[i]` for a numeric index: throws on `null`/`undefined`,
otherwise yields the element or `undefined`. -/
def jsIndex : JVal → Nat → Except Unit JVal
  | .null, _ => .error ()
  | .undefined, _ => .error ()
  | .arr xs, i => .ok (xs.getD i .undefined)
  | .obj fs, i => .ok (objGet fs (toString i))
  | .str s, i =>
    .ok (match s.data.get? i with
         | some c => .str (String.mk [c])
         | none => .undefined)
  | _, _ => .ok .undefined

/-- JavaScript `v.p` property access as used on the UI segment
(`uiState.ui`): throws on `null`/`undefined`, reads the field of an
object, `undefined` on other values. -/
def jsDot : JVal → String → Except Unit JVal
  | .null, _ => .error ()
  | .undefined, _ => .error ()
  | .obj fs, p => .ok (objGet fs p)
  | _, _ => .ok .undefined

/-- `const metricProperties = ['expr', 'target', 'datasource'];` -/
def metricProperties : List String := ["expr", "target", "datasource"]

/-- `Array.prototype.some` over property probes, left to right with
short-circuit; a thrown probe propagates. -/
def anyHasProp (v : JVal) : List String → Except Unit Bool
  | [] => .ok false
  | p :: ps => do
    let b ← jsHasOwnProperty v p
    if b then .ok true else anyHasProp v ps

/-- `isMetricSegment`: the segment has one of `expr`, `target`,
`datasource`. -/
def isMetricSegment (segment : JVal) : Except Unit Bool :=
  anyHasProp segment metricProperties

/-- `isUISegment`: the segment has a `ui` property. -/
def isUISegment (segment : JVal) : Except Unit Bool :=
  jsHasOwnProperty segment "ui"

/-- `Array.prototype.filter` with a predicate that may throw
(evaluated left to right, a throw propagates). -/
def filterE (p : JVal → Except Unit Bool) : List JVal → Except Unit (List JVal)
  | [] => .ok []
  | x :: xs => do
    let b ← p x
    let rest ← filterE p xs
    .ok (if b then x :: rest else rest)

/-- The `ui` sub-state of `ExploreUrlState` as the code observes it;
field types are left open because `parseUrlState` stores whatever the
URL carried. -/
structure EUIState where
  showingTable : JVal
  showingGraph : JVal
  showingLogs : JVal
  dedupStrategy : JVal
deriving DecidableEq

/-- `DEFAULT_UI_STATE` (with `LogsDedupStrategy.none = 'none'`). -/
def DEFAULT_UI_STATE : EUIState :=
  { showingTable := .bool true
    showingGraph := .bool true
    showingLogs := .bool true
    dedupStrategy := .str "none" }

/-- `ExploreUrlState` as the code observes it. -/
structure EState where
  datasource : JVal
  queries : List JVal
  rangeFrom : JVal
  rangeTo : JVal
  ui : EUIState
deriving DecidableEq

/-- `DEFAULT_RANGE = { from: 'now-6h', to: 'now' }`. -/
def DEFAULT_RANGE_FROM : JVal := .str "now-6h"

def DEFAULT_RANGE_TO : JVal := .str "now"

/-- The `errorResult` built inside `parseUrlState`. -/
def errorResult : EState :=
  { datasource := .null
    queries := []
    rangeFrom := DEFAULT_RANGE_FROM
    rangeTo := DEFAULT_RANGE_TO
    ui := DEFAULT_UI_STATE }

/-- What `parseUrlState` returns: either a state it assembled, or the
parsed value passed through unchanged when it was not an array. -/
inductive ParsedUrlState where
  | state (s : EState)
  | passthrough (v : JVal)
deriving DecidableEq

/-- `parseUrlState`.  The argument is the result of
`safeParseJson(initial)` (`none` = empty input or JSON parse failure);
`Except.error` models an exception escaping the function. -/
def parseUrlState (input : Option JVal) : Except Unit ParsedUrlState :=
  match input with
  | none => .ok (.state errorResult)
  | some parsed =>
    if jsFalsy parsed then .ok (.state errorResult)
    else
      match parsed with
      | .arr elems =>
        if elems.length ≤ 3 then .ok (.state errorResult)
        else do
          let rangeFrom := elems.getD 0 .undefined
          let rangeTo := elems.getD 1 .undefined
          let datasource := elems.getD 2 .undefined
          let parsedSegments := elems.drop 3
          let queries ← filterE isMetricSegment parsedSegments
          let uiSegs ← filterE isUISegment parsedSegments
          match uiSegs.head? with
          | some uiState => do
            let uiArr ← jsDot uiState "ui"
            let g ← jsIndex uiArr 0
            let l ← jsIndex uiArr 1
            let t ← jsIndex uiArr 2
            let d ← jsIndex uiArr 3
            .ok (.state { datasource, queries, rangeFrom, rangeTo,
                          ui := { showingTable := t, showingGraph := g,
                                  showingLogs := l, dedupStrategy := d } })
          | none =>
            .ok (.state { datasource, queries, rangeFrom, rangeTo,
                          ui := DEFAULT_UI_STATE })
      | _ => .ok (.passthrough parsed)

/-- The trailing UI marker emitted by the compact serializer:
`{ ui: [!!showingGraph, !!showingLogs, !!showingTable, dedupStrategy] }`. -/
def serializeUi (u : EUIState) : JVal :=
  .obj [("ui", .arr [.bool (jsTruthy u.showingGraph),
                     .bool (jsTruthy u.showingLogs),
                     .bool (jsTruthy u.showingTable),
                     u.dedupStrategy])]

/-- The non-compact branch: `JSON.stringify(urlState)` at the value level. -/
def stateToJson (s : EState) : JVal :=
  .obj [("datasource", s.datasource),
        ("queries", .arr s.queries),
        ("range", .obj [("from", s.rangeFrom), ("to", s.rangeTo)]),
        ("ui", .obj [("showingTable", s.ui.showingTable),
                     ("showingGraph", s.ui.showingGraph),
                     ("showingLogs", s.ui.showingLogs),
                     ("dedupStrategy", s.ui.dedupStrategy)])]

/-- `serializeStateToUrlParam` at the JSON-value level. -/
def serializeStateToUrlParam (urlState : EState) (compact : Bool) : JVal :=
  if compact then
    .arr ([urlState.rangeFrom, urlState.rangeTo, urlState.datasource]
          ++ urlState.queries ++ [serializeUi urlState.ui])
  else stateToJson urlState

example : parseUrlState none = .ok (.state errorResult) := by rfl

example :
    parseUrlState (some (.arr [.num 1, .num 2, .num 3, .null])) = .error () := by
  rfl

example :
    parseUrlState (some (.arr [.str "now-1h", .str "now", .str "Prometheus",
      .obj [("expr", .str "up")], .obj [("ui", .arr [.bool true, .bool false, .bool true, .num 0])]]))
    = .ok (.state { datasource := .str "Prometheus",
                    queries := [.obj [("expr", .str "up")]],
                    rangeFrom := .str "now-1h", rangeTo := .str "now",
                    ui := { showingTable := .bool true, showingGraph := .bool true,
                            showingLogs := .bool false, dedupStrategy := .num 0 } }) := by
  rfl

/-- A value on which property probing does not throw (not `null`, not
`undefined`). -/
def notNullish : JVal → Bool
  | .null => false
  | .undefined => false
  | _ => true

/-- Total (non-throwing) version of `hasOwnProperty`, agreeing with
`jsHasOwnProperty` on non-nullish values. -/
def hasPropB : JVal → String → Bool
  | .obj fs, p => objHas fs p
  | .str s, p => p == "length" || (p.toNat?.map (fun i => decide (i < s.length))).getD false
  | .arr xs, p => p == "length" || (p.toNat?.map (fun i => decide (i < xs.length))).getD false
  | _, _ => false

/-- Total version of `isMetricSegment`. -/
def isMetricSegmentB (v : JVal) : Bool := metricProperties.any (hasPropB v)

/-- Total version of `isUISegment`. -/
def isUISegmentB (v : JVal) : Bool := hasPropB v "ui"

/-- Total version of `jsDot`. -/
def jsDotD : JVal → String → JVal
  | .obj fs, p => objGet fs p
  | _, _ => .undefined

/-- Total version of `jsIndex`. -/
def jsIndexD : JVal → Nat → JVal
  | .arr xs, i => xs.getD i .undefined
  | .obj fs, i => objGet fs (toString i)
  | .str s, i =>
    (match s.data.get? i with
     | some c => .str (String.mk [c])
     | none => .undefined)
  | _, _ => .undefined

/-- The UI state `parseUrlState` reconstructs from a UI segment. -/
def uiFromSegment (u : JVal) : EUIState :=
  let uiArr := jsDotD u "ui"
  { showingTable := jsIndexD uiArr 2
    showingGraph := jsIndexD uiArr 0
    showingLogs := jsIndexD uiArr 1
    dedupStrategy := jsIndexD uiArr 3 }

/-- The state `parseUrlState` assembles from a long-enough compact array
when no probe throws. -/
def goodState (elems : List JVal) : EState :=
  let segs := elems.drop 3
  { datasource := elems.getD 2 .undefined
    queries := segs.filter isMetricSegmentB
    rangeFrom := elems.getD 0 .undefined
    rangeTo := elems.getD 1 .undefined
    ui := match segs.find? isUISegmentB with
          | some u => uiFromSegment u
          | none => DEFAULT_UI_STATE }

theorem except_bind_ok {α β : Type} (a : α) (f : α → Except Unit β) :
    ((Except.ok a : Except Unit α) >>= f) = f a := rfl

theorem jsHasOwnProperty_ok (v : JVal) (hv : notNullish v = true) (p : String) :
    jsHasOwnProperty v p = .ok (hasPropB v p) := by
  cases v <;> simp_all [jsHasOwnProperty, hasPropB, notNullish]

theorem anyHasProp_ok (v : JVal) (hv : notNullish v = true) (ps : List String) :
    anyHasProp v ps = .ok (ps.any (hasPropB v)) := by
  induction ps with
  | nil => rfl
  | cons p ps ih =>
    simp only [anyHasProp, jsHasOwnProperty_ok v hv, except_bind_ok, List.any_cons]
    cases h : hasPropB v p <;> simp [ih]

theorem isMetricSegment_ok (v : JVal) (hv : notNullish v = true) :
    isMetricSegment v = .ok (isMetricSegmentB v) := by
  simp [isMetricSegment, isMetricSegmentB, anyHasProp_ok v hv]

theorem isUISegment_ok (v : JVal) (hv : notNullish v = true) :
    isUISegment v = .ok (isUISegmentB v) := by
  simp [isUISegment, isUISegmentB, jsHasOwnProperty_ok v hv]

theorem jsDot_ok (v : JVal) (hv : notNullish v = true) (p : String) :
    jsDot v p = .ok (jsDotD v p) := by
  cases v <;> simp_all [jsDot, jsDotD, notNullish]

theorem jsIndex_ok (v : JVal) (hv : notNullish v = true) (i : Nat) :
    jsIndex v i = .ok (jsIndexD v i) := by
  cases v <;> simp_all [jsIndex, jsIndexD, notNullish]

theorem filterE_ok {pE : JVal → Except Unit Bool} {pB : JVal → Bool}
    (l : List JVal) (h : ∀ v ∈ l, pE v = .ok (pB v)) :
    filterE pE l = .ok (l.filter pB) := by
  induction l with
  | nil => rfl
  | cons x xs ih =>
    have hx := h x (by simp)
    have ih' := ih (fun v hv => h v (by simp [hv]))
    simp only [filterE, hx, except_bind_ok, ih', List.filter_cons]

theorem head?_filter (p : JVal → Bool) (l : List JVal) :
    (l.filter p).head? = l.find? p := by
  induction l with
  | nil => rfl
  | cons x xs ih =>
    simp only [List.filter_cons, List.find?]
    cases h : p x <;> simp [ih]

/-- On a long-enough compact array whose trailing segments are not
nullish and whose selected UI segment (if any) carries a non-nullish
`ui` field, `parseUrlState` succeeds and assembles `goodState`. -/
theorem parseUrlState_ok_of_safe (elems : List JVal)
    (h3 : 3 < elems.length)
    (h1 : ∀ v ∈ elems.drop 3, notNullish v = true)
    (h2 : ∀ u, (elems.drop 3).find? isUISegmentB = some u →
          notNullish (jsDotD u "ui") = true) :
    parseUrlState (some (.arr elems)) = .ok (.state (goodState elems)) := by
  have hfM : filterE isMetricSegment (elems.drop 3)
      = .ok ((elems.drop 3).filter isMetricSegmentB) :=
    filterE_ok _ (fun v hv => isMetricSegment_ok v (h1 v hv))
  have hfU : filterE isUISegment (elems.drop 3)
      = .ok ((elems.drop 3).filter isUISegmentB) :=
    filterE_ok _ (fun v hv => isUISegment_ok v (h1 v hv))
  simp only [parseUrlState, jsFalsy, jsTruthy, Bool.not_true, if_neg,
    Bool.false_eq_true, not_false_eq_true, hfM, except_bind_ok, hfU,
    head?_filter]
  rw [if_neg (by omega)]
  cases hfind : (elems.drop 3).find? isUISegmentB with
  | none => simp [goodState, hfind]
  | some u =>
    have hu : u ∈ elems.drop 3 := List.mem_of_find?_eq_some hfind
    have hnn : notNullish u = true := h1 u hu
    have hui : notNullish (jsDotD u "ui") = true := h2 u hfind
    simp only [jsDot_ok u hnn, except_bind_ok, jsIndex_ok _ hui]
    simp [goodState, hfind, uiFromSegment]

/-- C3: the claim says `parseUrlState` is total over arbitrary input,
but on the failing input `'[1,2,3,null]'` (an array whose trailing
element is `null`) the `segment.hasOwnProperty` probe inside the
metric-segment filter throws a `TypeError` past the function. -/
theorem c3_throws_on_null_segment :
    parseUrlState (some (.arr [.num 1, .num 2, .num 3, .null])) = .error () := by
  rfl

/-- C4: on input that is not valid JSON (a parse failure), and on input
parsing to a JSON array of length at most 3, `parseUrlState` returns
the full default state. -/
theorem c4_default_on_malformed :
    parseUrlState none = .ok (.state errorResult)
    ∧ ∀ xs : List JVal, xs.length ≤ 3 →
        parseUrlState (some (.arr xs)) = .ok (.state errorResult) := by
  refine ⟨rfl, fun xs h => ?_⟩
  simp [parseUrlState, jsFalsy, jsTruthy, h]

theorem c4_witness :
    [JVal.num 1].length ≤ 3
    ∧ parseUrlState (some (.arr [.num 1])) = .ok (.state errorResult) :=
  ⟨by decide, c4_default_on_malformed.2 [.num 1] (by decide)⟩

/-- C9 counterexample: the trailing element `null` contains none of the
fields `expr`, `target`, `datasource`, `ui`, yet its presence is not
silently ignored — `parseUrlState` throws instead of returning a
state. -/
theorem c9_counterexample :
    parseUrlState (some (.arr [.str "now-1h", .str "now", .str "ds",
      JVal.null, .obj [("expr", .str "up")]])) = .error () := by
  rfl

/-- C9 (amended): for a compact array of length > 3 whose trailing
elements are all non-nullish (and whose selected UI segment carries a
non-nullish `ui` field), every trailing element `e` containing none of
the fields `expr`, `target`, `datasource`, `ui` is silently omitted:
parsing succeeds without falling back to the default branch, `e` is not
among the returned queries, and the UI segment (if one is selected) is
not `e`. -/
theorem c9_ignored_segments_amended (elems : List JVal) (e : JVal)
    (h3 : 3 < elems.length)
    (h1 : ∀ v ∈ elems.drop 3, notNullish v = true)
    (h2 : ∀ u, (elems.drop 3).find? isUISegmentB = some u →
          notNullish (jsDotD u "ui") = true)
    (_he : e ∈ elems.drop 3)
    (hm : isMetricSegmentB e = false) (hu : isUISegmentB e = false) :
    parseUrlState (some (.arr elems)) = .ok (.state (goodState elems))
    ∧ e ∉ (goodState elems).queries
    ∧ ∀ u, (elems.drop 3).find? isUISegmentB = some u → u ≠ e := by
  refine ⟨parseUrlState_ok_of_safe elems h3 h1 h2, ?_, ?_⟩
  · intro hmem
    have : isMetricSegmentB e = true := by
      have h' : e ∈ (elems.drop 3).filter isMetricSegmentB := by
        simpa [goodState] using hmem
      exact (List.mem_filter.mp h').2
    simp [this] at hm
  · intro u hfind hue
    have : isUISegmentB u = true := List.find?_some hfind
    rw [hue] at this
    simp [this] at hu

theorem c9_witness :
    (3 < ([JVal.str "now-1h", JVal.str "now", JVal.str "ds", JVal.num 7,
           JVal.obj [("expr", JVal.str "up")]] : List JVal).length)
    ∧ JVal.num 7 ∈ ([JVal.str "now-1h", JVal.str "now", JVal.str "ds", JVal.num 7,
           JVal.obj [("expr", JVal.str "up")]] : List JVal).drop 3
    ∧ isMetricSegmentB (JVal.num 7) = false
    ∧ isUISegmentB (JVal.num 7) = false
    ∧ parseUrlState (some (.arr [JVal.str "now-1h", JVal.str "now", JVal.str "ds",
          JVal.num 7, JVal.obj [("expr", JVal.str "up")]]))
        = .ok (.state (goodState [JVal.str "now-1h", JVal.str "now", JVal.str "ds",
          JVal.num 7, JVal.obj [("expr", JVal.str "up")]]))
    ∧ JVal.num 7 ∉ (goodState [JVal.str "now-1h", JVal.str "now", JVal.str "ds",
          JVal.num 7, JVal.obj [("expr", JVal.str "up")]]).queries :=
  have h := c9_ignored_segments_amended
    [JVal.str "now-1h", JVal.str "now", JVal.str "ds", JVal.num 7,
     JVal.obj [("expr", JVal.str "up")]] (JVal.num 7)
    (by decide) (by decide) (by decide) (by decide) (by decide) (by decide)
  ⟨by decide, by decide, by decide, by decide, h.1, h.2.1⟩

/-- Whether a value is a boolean literal (the compact serializer's `!!`
coercion is the identity exactly on these). -/
def JVal.isBool : JVal → Bool
  | .bool _ => true
  | _ => false

theorem bool_jsTruthy_of_isBool (v : JVal) (h : v.isBool = true) :
    JVal.bool (jsTruthy v) = v := by
  cases v <;> simp_all [jsTruthy, JVal.isBool]

theorem find?_append_of_forall_false {p : JVal → Bool} (l₁ l₂ : List JVal)
    (h : ∀ x ∈ l₁, p x = false) : (l₁ ++ l₂).find? p = l₂.find? p := by
  induction l₁ with
  | nil => rfl
  | cons x xs ih =>
    have hx := h x (by simp)
    simp only [List.cons_append, List.find?, hx]
    exact ih (fun v hv => h v (by simp [hv]))

/-- C1 (amended): for every state whose UI visibility flags are boolean,
whose queries all carry at least one of the discriminant fields `expr`,
`target`, `datasource`, and none of which carries a `ui` field, parsing
the compact serialization reproduces the state exactly (range,
datasource, queries and ui). -/
theorem c1_roundtrip_amended (s : EState)
    (hq : ∀ q ∈ s.queries,
      notNullish q = true ∧ isMetricSegmentB q = true ∧ isUISegmentB q = false)
    (hg : s.ui.showingGraph.isBool = true)
    (hl : s.ui.showingLogs.isBool = true)
    (ht : s.ui.showingTable.isBool = true) :
    parseUrlState (some (serializeStateToUrlParam s true)) = .ok (.state s) := by
  obtain ⟨ds, qs, rf, rt, ust, usg, usl, usd⟩ := s
  simp only at hq hg hl ht
  have hser : serializeStateToUrlParam ⟨ds, qs, rf, rt, ust, usg, usl, usd⟩ true
      = .arr (rf :: rt :: ds :: (qs ++ [serializeUi ⟨ust, usg, usl, usd⟩])) := by
    simp [serializeStateToUrlParam]
  rw [hser]
  set uiM : JVal := serializeUi ⟨ust, usg, usl, usd⟩ with huiM
  set elems : List JVal := rf :: rt :: ds :: (qs ++ [uiM]) with helems
  have hdrop : elems.drop 3 = qs ++ [uiM] := rfl
  have huiMseg : isUISegmentB uiM = true := by rfl
  have huiMmet : isMetricSegmentB uiM = false := by rfl
  have hfind : (qs ++ [uiM]).find? isUISegmentB = some uiM := by
    rw [find?_append_of_forall_false qs [uiM] (fun q hqm => (hq q hqm).2.2)]
    simp [List.find?, huiMseg]
  have h3 : 3 < elems.length := by simp [helems]
  have h1 : ∀ v ∈ elems.drop 3, notNullish v = true := by
    rw [hdrop]
    intro v hv
    rcases List.mem_append.mp hv with hv | hv
    · exact (hq v hv).1
    · simp only [List.mem_singleton] at hv
      rw [hv, huiM]
      rfl
  have h2 : ∀ u, (elems.drop 3).find? isUISegmentB = some u →
      notNullish (jsDotD u "ui") = true := by
    intro u hu
    rw [hdrop, hfind] at hu
    injection hu with hu
    rw [← hu, huiM]
    rfl
  rw [parseUrlState_ok_of_safe elems h3 h1 h2]
  have hqueries : (qs ++ [uiM]).filter isMetricSegmentB = qs := by
    rw [List.filter_append]
    rw [List.filter_eq_self.mpr (fun q hqm => (hq q hqm).2.1)]
    simp [List.filter, huiMmet]
  have hui : uiFromSegment uiM
      = { showingTable := ust, showingGraph := usg,
          showingLogs := usl, dedupStrategy := usd } := by
    rw [huiM]
    simp only [uiFromSegment, serializeUi, jsDotD, objGet, List.find?,
      jsIndexD, List.getD, List.getElem?_cons_zero, List.getElem?_cons_succ,
      Option.getD_some, beq_self_eq_true, cond_true]
    simp [bool_jsTruthy_of_isBool _ hg, bool_jsTruthy_of_isBool _ hl,
      bool_jsTruthy_of_isBool _ ht]
  simp only [goodState, hdrop, hfind, hqueries, hui]
  rfl

/-- C1 counterexample: a state whose single query carries none of the
discriminant fields `expr`/`target`/`datasource` does not survive the
compact round trip — the query is dropped, so the parsed queries are
not those of the input state. -/
theorem c1_counterexample :
    parseUrlState (some (serializeStateToUrlParam
      { datasource := .null,
        queries := [.obj [("refId", .str "A")]],
        rangeFrom := .str "now-6h", rangeTo := .str "now",
        ui := DEFAULT_UI_STATE } true))
      = .ok (.state errorResult)
    ∧ errorResult.queries
      ≠ [JVal.obj [("refId", JVal.str "A")]] := by
  exact ⟨by rfl, by decide⟩

theorem c1_roundtrip_witness :
    (∀ q ∈ ({ datasource := JVal.str "Prometheus",
              queries := [JVal.obj [("expr", JVal.str "up")]],
              rangeFrom := JVal.str "now-1h", rangeTo := JVal.str "now",
              ui := { showingTable := JVal.bool true, showingGraph := JVal.bool true,
                      showingLogs := JVal.bool false,
                      dedupStrategy := JVal.str "exact" } } : EState).queries,
        notNullish q = true ∧ isMetricSegmentB q = true ∧ isUISegmentB q = false)
    ∧ parseUrlState (some (serializeStateToUrlParam
        { datasource := JVal.str "Prometheus",
          queries := [JVal.obj [("expr", JVal.str "up")]],
          rangeFrom := JVal.str "now-1h", rangeTo := JVal.str "now",
          ui := { showingTable := JVal.bool true, showingGraph := JVal.bool true,
                  showingLogs := JVal.bool false,
                  dedupStrategy := JVal.str "exact" } } true))
      = .ok (.state
        { datasource := JVal.str "Prometheus",
          queries := [JVal.obj [("expr", JVal.str "up")]],
          rangeFrom := JVal.str "now-1h", rangeTo := JVal.str "now",
          ui := { showingTable := JVal.bool true, showingGraph := JVal.bool true,
                  showingLogs := JVal.bool false,
                  dedupStrategy := JVal.str "exact" } }) :=
  ⟨by decide,
   c1_roundtrip_amended _ (by decide) (by decide) (by decide) (by decide)⟩

/-- A JavaScript object as an ordered field list (queries are open
objects of datasource-specific fields). -/
abbrev QObj := List (String × JVal)

/-- `{ ...query, k: v }`: override the property in place when present,
append it otherwise. -/
def setField (q : QObj) (k : String) (v : JVal) : QObj :=
  if objHas q k then q.map (fun f => if f.1 == k then (k, v) else f)
  else q ++ [(k, v)]

/-- The refId alphabet `'ABCDEFGHIJKLMNOPQRSTUVWXYZ'`. -/
def refIdLetters : List String :=
  ["A", "B", "C", "D", "E", "F", "G", "H", "I", "J", "K", "L", "M",
   "N", "O", "P", "Q", "R", "S", "T", "U", "V", "W", "X", "Y", "Z"]

/-- Modelled from the spec: `getNextRefIdChar` (imported from
`./query`, whose source is not part of this snapshot) allocates the
next unused letter `A`, `B`, `C`, … by a linear scan, skipping letters
already assigned as a `refId` in the given batch; `none` models the
`undefined` returned once every letter is taken. -/
def getNextRefIdChar (queries : List QObj) : Option String :=
  refIdLetters.find? (fun l => queries.all (fun q => !(objGet q "refId" == .str l)))

/-- `generateEmptyQuery(queries)`; `generateKey` draws `Date.now()` and
`Math.random()` from the environment, abstracted as `genKey`. -/
def generateEmptyQuery (genKey : Nat → String) (queries : List QObj) : QObj :=
  [("refId", match getNextRefIdChar queries with
             | some l => JVal.str l
             | none => JVal.undefined),
   ("key", .str (genKey 0))]

/-- The `for` loop of `ensureQueries`, pushing
`{...query, refId, key}` onto `allQueries`. -/
def ensureLoop (genKey : Nat → String) : Nat → List QObj → List QObj → List QObj
  | _, acc, [] => acc
  | index, acc, query :: rest =>
    let key := genKey index
    let refId0 := objGet query "refId"
    let refId := if jsFalsy refId0 then
        (match getNextRefIdChar acc with
         | some l => JVal.str l
         | none => JVal.undefined)
      else refId0
    ensureLoop genKey (index + 1)
      (acc ++ [setField (setField query "refId" refId) "key" (.str key)]) rest

/-- `ensureQueries` (key generator abstracted as `genKey`). -/
def ensureQueries (genKey : Nat → String) (queries : Option (List QObj)) : List QObj :=
  match queries with
  | some qs =>
    if 0 < qs.length then ensureLoop genKey 0 [] qs
    else [generateEmptyQuery genKey []]
  | none => [generateEmptyQuery genKey []]

/-- The refId column of a batch. -/
def refIds (qs : List QObj) : List JVal := qs.map (fun q => objGet q "refId")

theorem objHas_false_forall {q : QObj} {k : String} (h : objHas q k = false) :
    ∀ f ∈ q, (f.1 == k) = false := by
  intro f hf
  have hn : q.find? (fun f => f.1 == k) = none := by
    revert h
    unfold objHas
    cases q.find? (fun f => f.1 == k) <;> simp
  have := List.find?_eq_none.mp hn f hf
  simpa using this

theorem objGet_eq_undef_of_not_has {q : QObj} {k : String}
    (h : objHas q k = false) : objGet q k = .undefined := by
  have hn : q.find? (fun f => f.1 == k) = none := by
    revert h
    unfold objHas
    cases q.find? (fun f => f.1 == k) <;> simp
  simp [objGet, hn]

theorem objGet_append (q r : QObj) (k : String) :
    objGet (q ++ r) k = if objHas q k then objGet q k else objGet r k := by
  induction q with
  | nil => simp [objHas, objGet, List.find?]
  | cons f q' ih =>
    by_cases hf : (f.1 == k) = true
    · simp [objGet, objHas, List.find?, hf]
    · have hf' : (f.1 == k) = false := by
        revert hf
        cases (f.1 == k) <;> simp
      simp only [List.cons_append, objGet, objHas, List.find?, hf'] at *
      exact ih

theorem objGet_map_override (q : QObj) (k k' : String) (v : JVal)
    (hne : (k == k') = false) :
    objGet (q.map (fun f => if f.1 == k then (k, v) else f)) k'
      = objGet q k' := by
  induction q with
  | nil => rfl
  | cons f q' ih =>
    by_cases hf : (f.1 == k) = true
    · have hfk : f.1 = k := by simpa using hf
      have hf' : (f.1 == k') = false := by rw [hfk]; exact hne
      simp only [List.map_cons, hf, if_true, objGet, List.find?, hne, hf'] at *
      exact ih
    · have hf0 : (f.1 == k) = false := by
        revert hf
        cases (f.1 == k) <;> simp
      by_cases hf' : (f.1 == k') = true
      · simp [objGet, List.find?, hf0, hf']
      · have hf'0 : (f.1 == k') = false := by
          revert hf'
          cases (f.1 == k') <;> simp
        simp only [List.map_cons, hf0, Bool.false_eq_true, if_false,
          objGet, List.find?, hf'0] at *
        exact ih

theorem objGet_map_override_same (q : QObj) (k : String) (v : JVal)
    (h : objHas q k = true) :
    objGet (q.map (fun f => if f.1 == k then (k, v) else f)) k = v := by
  induction q with
  | nil => simp [objHas, List.find?] at h
  | cons f q' ih =>
    by_cases hf : (f.1 == k) = true
    · simp [objGet, List.find?, hf]
    · have hf0 : (f.1 == k) = false := by
        revert hf
        cases (f.1 == k) <;> simp
      have h' : objHas q' k = true := by
        simp only [objHas, List.find?, hf0] at h ⊢
        exact h
      simp only [List.map_cons, hf0, Bool.false_eq_true, if_false,
        objGet, List.find?] at *
      exact ih h'

theorem objGet_setField_same (q : QObj) (k : String) (v : JVal) :
    objGet (setField q k v) k = v := by
  unfold setField
  by_cases h : objHas q k = true
  · rw [if_pos h]
    exact objGet_map_override_same q k v h
  · have h' : objHas q k = false := by
      revert h
      cases objHas q k <;> simp
    rw [if_neg h, objGet_append, h']
    simp [objGet, List.find?]

theorem objGet_setField_ne (q : QObj) (k k' : String) (v : JVal)
    (hne : (k == k') = false) :
    objGet (setField q k v) k' = objGet q k' := by
  unfold setField
  by_cases h : objHas q k = true
  · rw [if_pos h]
    exact objGet_map_override q k k' v hne
  · rw [if_neg h, objGet_append]
    by_cases h' : objHas q k' = true
    · simp [h']
    · have h'0 : objHas q k' = false := by
        revert h'
        cases objHas q k' <;> simp
      rw [h'0, objGet_eq_undef_of_not_has h'0]
      simp [objGet, List.find?, hne]

theorem find?_congr_mem {α : Type} {p q : α → Bool} (l : List α)
    (h : ∀ x ∈ l, p x = q x) : l.find? p = l.find? q := by
  induction l with
  | nil => rfl
  | cons x xs ih =>
    have hx := h x (by simp)
    simp only [List.find?, hx]
    cases hq : q x
    · exact ih (fun v hv => h v (by simp [hv]))
    · rfl

theorem find?_not_mem_take :
    ∀ (L : List String), L.Nodup → ∀ k, k < L.length →
      L.find? (fun l => !((L.take k).contains l)) = L[k]?
  | [], _, k, hk => by simp at hk
  | a :: L, hnd, 0, _ => by
    simp [List.find?, List.take]
  | a :: L, hnd, k + 1, hk => by
    have hmem : ((a :: L).take (k + 1)).contains a = true := by
      simp [List.take]
    simp only [List.find?, hmem, Bool.not_true]
    have hae : a ∉ L := by simp [List.nodup_cons] at hnd; exact hnd.1
    have hcongr : ∀ x ∈ L,
        (!(((a :: L).take (k + 1)).contains x)) = (!((L.take k).contains x)) := by
      intro x hx
      have hxa : (x == a) = false := by
        have hne : x ≠ a := fun hxa => hae (hxa ▸ hx)
        simp [hne]
      simp only [List.take_succ_cons, List.contains_cons, hxa, Bool.false_or]
    rw [find?_congr_mem L hcongr]
    have hnd' : L.Nodup := by simp [List.nodup_cons] at hnd; exact hnd.2
    have hk' : k < L.length := by simpa using hk
    simpa using find?_not_mem_take L hnd' k hk'

theorem all_not_refId_eq_contains (acc : List QObj) (v : JVal) :
    acc.all (fun q => !(objGet q "refId" == v))
      = !((refIds acc).contains v) := by
  induction acc with
  | nil => rfl
  | cons q acc ih =>
    have hsym : (objGet q "refId" == v) = (v == objGet q "refId") := by
      by_cases h : objGet q "refId" = v <;> simp [h]
      exact fun he => h he.symm
    simp only [List.all_cons, refIds, List.map_cons, List.contains_cons,
      Bool.not_or, hsym, ih]

theorem contains_map_str (T : List String) (l : String) :
    ((T.map JVal.str).contains (JVal.str l)) = T.contains l := by
  induction T with
  | nil => rfl
  | cons x T ih =>
    have : (JVal.str l == JVal.str x) = (l == x) := rfl
    simp [List.contains_cons, ih, this]

theorem refIdLetters_nodup : refIdLetters.Nodup := by decide

theorem getNextRefIdChar_spec (acc : List QObj) (k : Nat) (hk : k < 26)
    (h : refIds acc = (refIdLetters.take k).map JVal.str) :
    getNextRefIdChar acc = refIdLetters[k]? := by
  unfold getNextRefIdChar
  have hper : ∀ l ∈ refIdLetters,
      (acc.all (fun q => !(objGet q "refId" == JVal.str l)))
        = (!((refIdLetters.take k).contains l)) := by
    intro l _
    rw [all_not_refId_eq_contains, h, contains_map_str]
  rw [find?_congr_mem refIdLetters hper]
  exact find?_not_mem_take refIdLetters refIdLetters_nodup k
    (by simpa [refIdLetters] using hk)

theorem ensureLoop_falsy (gk : Nat → String) :
    ∀ (rest : List QObj) (k i : Nat) (acc : List QObj),
      (∀ q ∈ rest, jsFalsy (objGet q "refId") = true) →
      refIds acc = (refIdLetters.take k).map JVal.str →
      k + rest.length ≤ 26 →
      refIds (ensureLoop gk i acc rest)
        = (refIdLetters.take (k + rest.length)).map JVal.str
  | [], k, i, acc, _, hacc, _ => by simpa using hacc
  | query :: rest, k, i, acc, hfalsy, hacc, hlen => by
    have hk : k < 26 := by
      simp only [List.length_cons] at hlen
      omega
    have hget := getNextRefIdChar_spec acc k hk hacc
    have hkl : k < refIdLetters.length := by simpa [refIdLetters] using hk
    have hl : refIdLetters[k]? = some (refIdLetters.get ⟨k, hkl⟩) :=
      List.getElem?_eq_getElem hkl
    have hq0 : jsFalsy (objGet query "refId") = true := hfalsy query (by simp)
    have hstep : ensureLoop gk i acc (query :: rest)
        = ensureLoop gk (i + 1)
            (acc ++ [setField (setField query "refId"
              (JVal.str (refIdLetters.get ⟨k, hkl⟩))) "key" (.str (gk i))]) rest := by
      simp only [ensureLoop, hq0, if_true, hget, hl]
    rw [hstep]
    have hrefid : objGet (setField (setField query "refId"
        (JVal.str (refIdLetters.get ⟨k, hkl⟩))) "key" (.str (gk i))) "refId"
        = JVal.str (refIdLetters.get ⟨k, hkl⟩) := by
      rw [objGet_setField_ne _ _ _ _ (by rfl)]
      exact objGet_setField_same _ _ _
    have hacc' : refIds (acc ++ [setField (setField query "refId"
        (JVal.str (refIdLetters.get ⟨k, hkl⟩))) "key" (.str (gk i))])
        = (refIdLetters.take (k + 1)).map JVal.str := by
      rw [List.take_succ, hl]
      simp only [refIds, List.map_append, List.map_cons, List.map_nil, hrefid,
        Option.toList]
      rw [← hacc]
      rfl
    have hrec := ensureLoop_falsy gk rest (k + 1) (i + 1) _
      (fun q hq => hfalsy q (by simp [hq])) hacc'
      (by simp only [List.length_cons] at hlen; omega)
    rw [hrec]
    have : k + (query :: rest).length = k + 1 + rest.length := by
      simp only [List.length_cons]
      omega
    rw [this]

/-- C2 (amended): an existing non-empty `refId` is kept verbatim, so
duplicated input refIds survive to the output; the collision-free
guarantee holds for allocation: when every input query's `refId` is
missing or empty and the batch has between 1 and 26 queries, the output
refIds are exactly the first letters `A`, `B`, … in order, and hence
pairwise distinct. -/
theorem c2_ensureQueries_amended (genKey : Nat → String) (qs : List QObj)
    (hne : qs ≠ []) (hlen : qs.length ≤ 26)
    (hfalsy : ∀ q ∈ qs, jsFalsy (objGet q "refId") = true) :
    refIds (ensureQueries genKey (some qs))
      = (refIdLetters.take qs.length).map JVal.str
    ∧ (refIds (ensureQueries genKey (some qs))).Nodup := by
  have h0 : 0 < qs.length := List.length_pos.mpr hne
  have hloop := ensureLoop_falsy genKey qs 0 0 [] hfalsy (by simp [refIds]) (by omega)
  have heq : ensureQueries genKey (some qs) = ensureLoop genKey 0 [] qs := by
    simp [ensureQueries, h0]
  rw [heq, hloop, Nat.zero_add]
  refine ⟨rfl, ?_⟩
  exact ((refIdLetters_nodup.sublist (List.take_sublist _ _)).map
    (fun a b h => JVal.str.inj h))

/-- C2 counterexample: two input queries both carrying refId `"A"` keep
it, so `ensureQueries` returns a batch with two queries sharing the
same refId. -/
theorem c2_counterexample :
    refIds (ensureQueries (fun i => toString i)
        (some [[("refId", JVal.str "A")], [("refId", JVal.str "A")]]))
      = [JVal.str "A", JVal.str "A"]
    ∧ ¬ (refIds (ensureQueries (fun i => toString i)
        (some [[("refId", JVal.str "A")], [("refId", JVal.str "A")]]))).Nodup := by
  exact ⟨by rfl, by decide⟩

theorem c2_witness :
    (([[("expr", JVal.str "up")], ([] : QObj)] : List QObj) ≠ [])
    ∧ ([[("expr", JVal.str "up")], ([] : QObj)] : List QObj).length ≤ 26
    ∧ (∀ q ∈ ([[("expr", JVal.str "up")], ([] : QObj)] : List QObj),
        jsFalsy (objGet q "refId") = true)
    ∧ refIds (ensureQueries (fun i => toString i)
        (some [[("expr", JVal.str "up")], ([] : QObj)]))
      = (refIdLetters.take
          ([[("expr", JVal.str "up")], ([] : QObj)] : List QObj).length).map JVal.str
    ∧ (refIds (ensureQueries (fun i => toString i)
        (some [[("expr", JVal.str "up")], ([] : QObj)]))).Nodup :=
  have h := c2_ensureQueries_amended (fun i => toString i)
    [[("expr", JVal.str "up")], ([] : QObj)] (by decide) (by decide) (by decide)
  ⟨by decide, by decide, by decide, h.1, h.2⟩

/-- `hasNonEmptyQuery`:
`queries.some(q => Object.keys(q).map(k => q[k]).filter(v => v).length > 2)`. -/
def hasNonEmptyQuery (queries : List QObj) : Bool :=
  queries.any (fun query =>
    decide (2 < ((query.map (fun f => objGet query f.1)).filter jsTruthy).length))

/-- The claim's reading of the predicate: more than two truthy-valued
fields besides `key` and `refId`. -/
def claimC5NonEmpty (queries : List QObj) : Bool :=
  queries.any (fun query =>
    decide (2 < ((query.filter
      (fun f => !(f.1 == "key") && !(f.1 == "refId"))).filter
        (fun f => jsTruthy f.2)).length))

theorem objGet_of_mem_nodup :
    ∀ (q : QObj), (q.map Prod.fst).Nodup → ∀ f ∈ q, objGet q f.1 = f.2
  | [], _, f, hf => by simp at hf
  | g :: q', hnd, f, hf => by
    rcases List.mem_cons.mp hf with hfg | hf'
    · subst hfg
      simp [objGet, List.find?]
    · have hmem : f.1 ∈ q'.map Prod.fst := List.mem_map.mpr ⟨f, hf', rfl⟩
      have hgn : g.1 ∉ q'.map Prod.fst := by
        simp only [List.map_cons, List.nodup_cons] at hnd
        exact hnd.1
      have hne : (g.1 == f.1) = false := by
        have : g.1 ≠ f.1 := fun he => hgn (he ▸ hmem)
        simp [this]
      have hnd' : (q'.map Prod.fst).Nodup := by
        simp only [List.map_cons, List.nodup_cons] at hnd
        exact hnd.2
      simp only [objGet, List.find?, hne]
      exact objGet_of_mem_nodup q' hnd' f hf'

theorem length_filter_snd (q : QObj) :
    ((q.map Prod.snd).filter jsTruthy).length
      = (q.filter (fun f => jsTruthy f.2)).length := by
  induction q with
  | nil => rfl
  | cons f q' ih =>
    simp only [List.map_cons, List.filter_cons]
    cases h : jsTruthy f.2 <;> simp [h, ih]

theorem c5_count_eq (q : QObj) (hnd : (q.map Prod.fst).Nodup) :
    ((q.map (fun f => objGet q f.1)).filter jsTruthy).length
      = (q.filter (fun f => jsTruthy f.2)).length := by
  have hmap : q.map (fun f => objGet q f.1) = q.map Prod.snd :=
    List.map_congr_left (fun f hf => objGet_of_mem_nodup q hnd f hf)
  rw [hmap, length_filter_snd]

/-- C5 (amended): for a non-empty batch of queries with well-formed
(duplicate-free) field names, `hasNonEmptyQuery` is true iff some query
has more than two truthy-valued fields in total — the count includes
`key` and `refId` rather than excluding them. -/
theorem c5_hasNonEmptyQuery_amended (qs : List QObj) (_hne : qs ≠ [])
    (hnd : ∀ q ∈ qs, (q.map Prod.fst).Nodup) :
    (hasNonEmptyQuery qs = true
      ↔ ∃ q ∈ qs, 2 < (q.filter (fun f => jsTruthy f.2)).length) := by
  unfold hasNonEmptyQuery
  rw [List.any_eq_true]
  constructor
  · rintro ⟨q, hq, h⟩
    refine ⟨q, hq, ?_⟩
    rw [← c5_count_eq q (hnd q hq)]
    simpa using h
  · rintro ⟨q, hq, h⟩
    refine ⟨q, hq, ?_⟩
    rw [decide_eq_true_eq, c5_count_eq q (hnd q hq)]
    exact h

/-- C5 counterexample: a query `{key, refId, expr}` with three truthy
fields makes `hasNonEmptyQuery` true, yet it has only one truthy field
besides `key` and `refId`, so the claim's count (strictly more than two
besides `key`/`refId`) is not met. -/
theorem c5_counterexample :
    hasNonEmptyQuery [[("key", JVal.str "k"), ("refId", JVal.str "A"),
        ("expr", JVal.str "up")]] = true
    ∧ claimC5NonEmpty [[("key", JVal.str "k"), ("refId", JVal.str "A"),
        ("expr", JVal.str "up")]] = false := by
  exact ⟨by rfl, by rfl⟩

theorem c5_witness :
    (([[("key", JVal.str "k"), ("refId", JVal.str "A"),
        ("expr", JVal.str "up"), ("legendFormat", JVal.str "x")]] : List QObj) ≠ [])
    ∧ (∀ q ∈ ([[("key", JVal.str "k"), ("refId", JVal.str "A"),
        ("expr", JVal.str "up"), ("legendFormat", JVal.str "x")]] : List QObj),
        (q.map Prod.fst).Nodup)
    ∧ (hasNonEmptyQuery [[("key", JVal.str "k"), ("refId", JVal.str "A"),
        ("expr", JVal.str "up"), ("legendFormat", JVal.str "x")]] = true
      ↔ ∃ q ∈ ([[("key", JVal.str "k"), ("refId", JVal.str "A"),
        ("expr", JVal.str "up"), ("legendFormat", JVal.str "x")]] : List QObj),
          2 < (q.filter (fun f => jsTruthy f.2)).length) :=
  ⟨by decide, by decide,
   c5_hasNonEmptyQuery_amended _ (by decide) (by decide)⟩

/-- `HistoryItem`: `{ query, ts }`. -/
structure HistoryItem where
  query : QObj
  ts : Nat
deriving DecidableEq

/-- The persistent key-value store (`app/core/store` collaborator),
modelled as an association list with the most recent binding first. -/
abbrev Store := List (String × List HistoryItem)

/-- `store.setObject(key, value)`. -/
def storeSet (st : Store) (k : String) (v : List HistoryItem) : Store :=
  (k, v) :: st

/-- `store.getObject(key)`. -/
def storeGet (st : Store) (k : String) : Option (List HistoryItem) :=
  (st.find? (fun e => e.1 == k)).map (fun e => e.2)

/-- `const MAX_HISTORY_ITEMS = 100;` -/
def MAX_HISTORY_ITEMS : Nat := 100

/-- `updateHistory(history, datasourceId, queries)`; `Date.now()` is
abstracted as `now`, and the storage side effect is returned as the
updated store. -/
def updateHistory (now : Nat) (st : Store) (history : List HistoryItem)
    (datasourceId : String) (queries : List QObj) :
    List HistoryItem × Store :=
  let history := queries.foldl (fun h query => ⟨query, now⟩ :: h) history
  let history := if MAX_HISTORY_ITEMS < history.length
    then history.take MAX_HISTORY_ITEMS else history
  let historyKey := "grafana.explore.history." ++ datasourceId
  (history, storeSet st historyKey history)

theorem foldl_prepend (now : Nat) :
    ∀ (queries : List QObj) (h : List HistoryItem),
      queries.foldl (fun h query => ⟨query, now⟩ :: h) h
        = (queries.reverse.map (fun q => (⟨q, now⟩ : HistoryItem))) ++ h
  | [], h => by simp
  | q :: qs, h => by
    simp only [List.foldl_cons, foldl_prepend now qs, List.reverse_cons,
      List.map_append, List.map_cons, List.map_nil, List.append_assoc,
      List.singleton_append]

/-- C6: the returned history is the new items (one shared timestamp,
in reverse input order) prepended to the previous history, truncated to
the first 100 entries; its length therefore never exceeds 100, so the
bound is maintained across any number of update calls. -/
theorem c6_updateHistory_shape (now : Nat) (st : Store)
    (history : List HistoryItem) (datasourceId : String)
    (queries : List QObj) :
    (updateHistory now st history datasourceId queries).1
      = ((queries.reverse.map (fun q => (⟨q, now⟩ : HistoryItem)))
          ++ history).take 100
    ∧ (updateHistory now st history datasourceId queries).1.length ≤ 100 := by
  have h1 : (updateHistory now st history datasourceId queries).1
      = ((queries.reverse.map (fun q => (⟨q, now⟩ : HistoryItem)))
          ++ history).take 100 := by
    simp only [updateHistory, foldl_prepend now queries history,
      MAX_HISTORY_ITEMS]
    by_cases h : 100 <
        ((queries.reverse.map (fun q => (⟨q, now⟩ : HistoryItem)))
          ++ history).length
    · rw [if_pos h]
    · rw [if_neg h, List.take_of_length_le (by omega)]
  refine ⟨h1, ?_⟩
  rw [h1]
  exact List.length_take_le 100 _

/-- C10: the value persisted under
`grafana.explore.history.<datasourceId>` is exactly the returned list
(also for an empty query batch, where the write still happens), and an
over-long input history is truncated to its first 100 items. -/
theorem c10_history_persistence (now : Nat) (st : Store)
    (history : List HistoryItem) (datasourceId : String)
    (queries : List QObj) :
    storeGet (updateHistory now st history datasourceId queries).2
        ("grafana.explore.history." ++ datasourceId)
      = some (updateHistory now st history datasourceId queries).1
    ∧ (queries = [] → 100 < history.length →
        (updateHistory now st history datasourceId queries).1
          = history.take 100) := by
  constructor
  · simp [updateHistory, storeGet, storeSet, List.find?]
  · intro hq hl
    subst hq
    simp only [updateHistory, List.foldl_nil, MAX_HISTORY_ITEMS]
    rw [if_pos hl]

theorem c10_witness :
    (updateHistory 0 [] (List.replicate 101 ⟨[], 0⟩) "prom" []).1
      = (List.replicate 101 (⟨[], 0⟩ : HistoryItem)).take 100
    ∧ storeGet (updateHistory 0 [] (List.replicate 101 ⟨[], 0⟩) "prom" []).2
        ("grafana.explore.history." ++ "prom")
      = some (updateHistory 0 [] (List.replicate 101 ⟨[], 0⟩) "prom" []).1 :=
  have h := c10_history_persistence 0 [] (List.replicate 101 ⟨[], 0⟩) "prom" []
  ⟨h.2 rfl (by simp), h.1⟩

/-- The fields of a `QueryTransaction` consumed by
`makeTimeSeriesList`, with `id` (from `generateKey`) standing in for
the object identity the `===` break compares. -/
structure Txn where
  id : String
  resultType : String
  done : Bool
  result : List JVal
deriving DecidableEq

/-- A constructed `TimeSeries` view model (the constructor stores the
supplied `datapoints`, `alias`, `color`, `unit`). -/
structure STimeSeries where
  datapoints : JVal
  «alias» : JVal
  color : JVal
  unit : JVal
deriving DecidableEq

/-- The `colorIndexOffset` loop of `makeTimeSeriesList`: sum the series
counts of `done` Graph transactions until the current one is reached
(`break`). -/
def colorOffsetLoop (transaction : Txn) : List Txn → Nat
  | [] => 0
  | other :: rest =>
    if other = transaction then 0
    else (if other.resultType == "Graph" && other.done
          then other.result.length else 0) + colorOffsetLoop transaction rest

/-- `dataList.map((seriesData, index) => ...)` with an explicit running
index. -/
def mapWithIndex {α β : Type} (f : Nat → α → β) : Nat → List α → List β
  | _, [] => []
  | i, a :: as => f i a :: mapWithIndex f (i + 1) as

/-- `makeTimeSeriesList`, with the palette (`colors` from the UI
library) passed explicitly; `colors[colorIndex]` yields `undefined`
out of bounds. -/
def makeTimeSeriesList (colors : List String) (dataList : List QObj)
    (transaction : Txn) (allTransactions : List Txn) : List STimeSeries :=
  let colorIndexOffset := colorOffsetLoop transaction allTransactions
  mapWithIndex (fun index seriesData =>
    let datapoints := if jsFalsy (objGet seriesData "datapoints")
      then JVal.arr [] else objGet seriesData "datapoints"
    let aliasV := objGet seriesData "target"
    let colorIndex := (colorIndexOffset + index) % colors.length
    let color := match colors[colorIndex]? with
      | some c => JVal.str c
      | none => JVal.undefined
    { datapoints := datapoints, «alias» := aliasV, color := color,
      unit := objGet seriesData "unit" })
    0 dataList

/-- The spec-side color offset: the total series count contributed by
every transaction strictly before the given one (in list order) that is
of result type Graph and marked done. -/
def specColorOffset (transaction : Txn) (allTransactions : List Txn) : Nat :=
  (((allTransactions.takeWhile (fun t => !(t == transaction))).filter
      (fun t => t.resultType == "Graph" && t.done)).map
    (fun t => t.result.length)).sum

theorem colorOffset_eq (t : Txn) :
    ∀ l, colorOffsetLoop t l = specColorOffset t l
  | [] => rfl
  | o :: rest => by
    by_cases h : o = t
    · have hb : (o == t) = true := by simp [h]
      simp [colorOffsetLoop, specColorOffset, h, List.takeWhile_cons, hb]
    · have hb : (!(o == t)) = true := by simp [h]
      simp only [colorOffsetLoop, if_neg h, specColorOffset,
        List.takeWhile_cons, hb, List.filter_cons]
      cases hc : o.resultType == "Graph" && o.done
      · simpa [hc] using colorOffset_eq t rest
      · simpa [hc] using congrArg (o.result.length + ·) (colorOffset_eq t rest)

theorem mapWithIndex_get? {α β : Type} (f : Nat → α → β) :
    ∀ (l : List α) (j i : Nat),
      (mapWithIndex f j l)[i]? = (l[i]?).map (fun a => f (j + i) a)
  | [], j, i => by simp [mapWithIndex]
  | a :: as, j, 0 => by simp [mapWithIndex]
  | a :: as, j, i + 1 => by
    simp only [mapWithIndex, List.getElem?_cons_succ]
    rw [mapWithIndex_get? f as (j + 1) i]
    have : j + 1 + i = j + (i + 1) := by omega
    rw [this]

/-- C7: each series at local index `i` receives
`palette[(offset + i) mod paletteSize]`, where `offset` is the sum of
the series counts of the `done` Graph transactions strictly before the
given transaction in `allTransactions`. -/
theorem c7_color_assignment (colors : List String) (dataList : List QObj)
    (transaction : Txn) (allTransactions : List Txn) (i : Nat)
    (hi : i < dataList.length) :
    ((makeTimeSeriesList colors dataList transaction allTransactions)[i]?).map
        STimeSeries.color
      = some (match colors[(specColorOffset transaction allTransactions + i)
                % colors.length]? with
              | some c => JVal.str c
              | none => JVal.undefined) := by
  have ha : dataList[i]? = some (dataList.get ⟨i, hi⟩) :=
    List.getElem?_eq_getElem hi
  simp only [makeTimeSeriesList, mapWithIndex_get?, ha, Option.map_some,
    Nat.zero_add, colorOffset_eq]
  rfl

theorem c7_witness :
    (0 < ([[("target", JVal.str "s")]] : List QObj).length)
    ∧ ((makeTimeSeriesList ["c0", "c1", "c2", "c3"]
          [[("target", JVal.str "s")]]
          ⟨"cur", "Graph", false, []⟩
          [⟨"t1", "Graph", true, [JVal.num 1, JVal.num 2]⟩,
           ⟨"t2", "Graph", true, [JVal.num 3, JVal.num 4, JVal.num 5]⟩,
           ⟨"cur", "Graph", false, []⟩])[0]?).map STimeSeries.color
      = some (match (["c0", "c1", "c2", "c3"] : List String)[(specColorOffset
                ⟨"cur", "Graph", false, []⟩
                [⟨"t1", "Graph", true, [JVal.num 1, JVal.num 2]⟩,
                 ⟨"t2", "Graph", true, [JVal.num 3, JVal.num 4, JVal.num 5]⟩,
                 ⟨"cur", "Graph", false, []⟩] + 0) % 4]? with
              | some c => JVal.str c
              | none => JVal.undefined) :=
  ⟨by decide,
   c7_color_assignment ["c0", "c1", "c2", "c3"] [[("target", JVal.str "s")]]
     ⟨"cur", "Graph", false, []⟩
     [⟨"t1", "Graph", true, [JVal.num 1, JVal.num 2]⟩,
      ⟨"t2", "Graph", true, [JVal.num 3, JVal.num 4, JVal.num 5]⟩,
      ⟨"cur", "Graph", false, []⟩] 0 (by decide)⟩

example :
    specColorOffset ⟨"cur", "Graph", false, []⟩
      [⟨"t1", "Graph", true, [JVal.num 1, JVal.num 2]⟩,
       ⟨"t2", "Graph", true, [JVal.num 3, JVal.num 4, JVal.num 5]⟩,
       ⟨"cur", "Graph", false, []⟩] = 5 := by decide

example :
    ((makeTimeSeriesList ["c0", "c1", "c2", "c3"]
        [[("target", JVal.str "s")]]
        ⟨"cur", "Graph", false, []⟩
        [⟨"t1", "Graph", true, [JVal.num 1, JVal.num 2]⟩,
         ⟨"t2", "Graph", true, [JVal.num 3, JVal.num 4, JVal.num 5]⟩,
         ⟨"cur", "Graph", false, []⟩])[0]?).map STimeSeries.color
      = some (JVal.str "c1") := by decide

/-- JavaScript string coercion (`String(v)`, `combinedKey += query.key`,
template literals): arrays join their elements with commas (nullish
elements as empty), objects print `[object Object]`. -/
def jsToString : JVal → String
  | .null => "null"
  | .undefined => "undefined"
  | .bool b => cond b "true" "false"
  | .num n => toString n
  | .str s => s
  | .obj _ => "[object Object]"
  | .arr [] => ""
  | .arr [v] =>
    (match v with
     | .null => ""
     | .undefined => ""
     | w => jsToString w)
  | .arr (v :: w :: rest) =>
    (match v with
     | .null => ""
     | .undefined => ""
     | u => jsToString u)
    ++ "," ++ jsToString (.arr (w :: rest))
decreasing_by all_goals (simp_wf <;> omega)

/-- `{ ...query, ...queryOptions }`: a copy of `query` with properties
overridden by `queryOptions` in place, then `queryOptions`' new
properties appended in their order. -/
def mergeObj (query queryOptions : QObj) : QObj :=
  (query.map (fun f => if objHas queryOptions f.1
                       then (f.1, objGet queryOptions f.1) else f))
    ++ queryOptions.filter (fun g => !(objHas query g.1))

/-- `TimeRange`: resolved boundaries plus the raw range. -/
structure TimeRange where
  fromTime : JVal
  toTime : JVal
  raw : JVal
deriving DecidableEq

/-- A `{ text, value }` templating variable. -/
structure ScopedVar where
  text : JVal
  value : JVal
deriving DecidableEq

/-- The `scopedVars` record exposing `__interval` and `__interval_ms`. -/
structure ScopedVars where
  __interval : ScopedVar
  __interval_ms : ScopedVar
deriving DecidableEq

/-- `QueryIntervals`. -/
structure QueryIntervals where
  interval : String
  intervalMs : Int
deriving DecidableEq

/-- The `options` object assembled by `buildQueryTransaction`. -/
structure TxnOptions where
  interval : String
  intervalMs : Int
  panelId : String
  targets : List QObj
  range : TimeRange
  rangeRaw : JVal
  scopedVars : ScopedVars
  maxDataPoints : JVal
deriving DecidableEq

/-- `QueryTransaction` as returned by `buildQueryTransaction`. -/
structure QueryTransaction where
  queries : List QObj
  options : TxnOptions
  resultType : String
  scanning : Bool
  id : String
  done : Bool
  latency : Int
deriving DecidableEq

/-- `buildQueryTransaction` (the fresh `generateKey()` id abstracted as
`genId`). -/
def buildQueryTransaction (genId : String) (queries : List QObj)
    (resultType : String) (queryOptions : QObj) (range : TimeRange)
    (queryIntervals : QueryIntervals) (scanning : Bool) : QueryTransaction :=
  let interval := queryIntervals.interval
  let intervalMs := queryIntervals.intervalMs
  let configuredQueries := queries.map (fun query => mergeObj query queryOptions)
  let key := queries.foldl
    (fun combinedKey query => combinedKey ++ jsToString (objGet query "key")) ""
  let panelId := jsToString (objGet queryOptions "format") ++ "-" ++ key
  { queries := queries
    options := {
      interval := interval
      intervalMs := intervalMs
      panelId := panelId
      targets := configuredQueries
      range := range
      rangeRaw := range.raw
      scopedVars := {
        __interval := { text := .str interval, value := .str interval }
        __interval_ms := { text := .num intervalMs, value := .num intervalMs } }
      maxDataPoints := objGet queryOptions "maxDataPoints" }
    resultType := resultType
    scanning := scanning
    id := genId
    done := false
    latency := 0 }

theorem objHas_map_preserve (q : QObj) (g : String × JVal → String × JVal)
    (hg : ∀ f, (g f).1 = f.1) (k : String) :
    objHas (q.map g) k = objHas q k := by
  induction q with
  | nil => rfl
  | cons f q' ih =>
    by_cases hf : (f.1 == k) = true
    · have : ((g f).1 == k) = true := by rw [hg f]; exact hf
      simp [objHas, List.find?, hf, this]
    · have hf0 : (f.1 == k) = false := by
        revert hf
        cases (f.1 == k) <;> simp
      have : ((g f).1 == k) = false := by rw [hg f]; exact hf0
      simp only [objHas, List.map_cons, List.find?, hf0, this] at *
      exact ih

theorem find?_filter_of_imp {α : Type} (p r : α → Bool)
    (h : ∀ x, p x = true → r x = true) :
    ∀ l : List α, (l.filter r).find? p = l.find? p
  | [] => rfl
  | x :: l => by
    cases hr : r x
    · have hp : p x = false := by
        cases hpx : p x
        · rfl
        · rw [h x hpx] at hr
          cases hr
      simp only [List.filter_cons, hr, Bool.false_eq_true, if_false,
        List.find?, hp]
      exact find?_filter_of_imp p r h l
    · simp only [List.filter_cons, hr, if_true, List.find?]
      cases hp : p x
      · exact find?_filter_of_imp p r h l
      · rfl

theorem objGet_merge_of_has (qo : QObj) :
    ∀ (q : QObj) (f : String), objHas q f = true →
      objGet (q.map (fun g => if objHas qo g.1
          then (g.1, objGet qo g.1) else g)) f
        = if objHas qo f then objGet qo f else objGet q f
  | [], f, hq => by simp [objHas, List.find?] at hq
  | g :: q', f, hq => by
    by_cases hf : (g.1 == f) = true
    · have hfe : g.1 = f := by simpa using hf
      subst hfe
      by_cases hqo : objHas qo g.1 = true
      · simp [objGet, List.find?, hqo]
      · have hqo0 : objHas qo g.1 = false := by
          revert hqo
          cases objHas qo g.1 <;> simp
        simp [objGet, List.find?, hqo0]
    · have hf0 : (g.1 == f) = false := by
        revert hf
        cases (g.1 == f) <;> simp
      have hq' : objHas q' f = true := by
        simp only [objHas, List.find?, hf0] at hq ⊢
        exact hq
      have hrec := objGet_merge_of_has qo q' f hq'
      by_cases hqo : objHas qo g.1 = true
      · simp only [List.map_cons, hqo, if_true, objGet, List.find?, hf0] at *
        exact hrec
      · have hqo0 : objHas qo g.1 = false := by
          revert hqo
          cases objHas qo g.1 <;> simp
        simp only [List.map_cons, hqo0, Bool.false_eq_true, if_false,
          objGet, List.find?, hf0] at *
        exact hrec

theorem objGet_filter_of_imp (qo : QObj) (f : String)
    (r : String × JVal → Bool)
    (h : ∀ x, (x.1 == f) = true → r x = true) :
    objGet (qo.filter r) f = objGet qo f := by
  unfold objGet
  rw [find?_filter_of_imp _ r h]

theorem objHas_filter_of_imp (qo : QObj) (f : String)
    (r : String × JVal → Bool)
    (h : ∀ x, (x.1 == f) = true → r x = true) :
    objHas (qo.filter r) f = objHas qo f := by
  unfold objHas
  rw [find?_filter_of_imp _ r h]

/-- Property lookup after the spread `{...query, ...queryOptions}`:
the shared options win on common names. -/
theorem objGet_mergeObj (q qo : QObj) (f : String) :
    objGet (mergeObj q qo) f
      = if objHas qo f then objGet qo f else objGet q f := by
  unfold mergeObj
  rw [objGet_append]
  rw [objHas_map_preserve q _ (fun g => by
    by_cases h : objHas qo g.1 = true <;> simp [h])]
  by_cases hq : objHas q f = true
  · rw [hq, if_pos rfl]
    exact objGet_merge_of_has qo q f hq
  · have hq0 : objHas q f = false := by
      revert hq
      cases objHas q f <;> simp
    have himp : ∀ x : String × JVal, (x.1 == f) = true →
        (!(objHas q x.1)) = true := by
      intro x hx
      have hxf : x.1 = f := by simpa using hx
      rw [hxf, hq0]
      rfl
    rw [hq0]
    simp only [Bool.false_eq_true, if_false]
    rw [objGet_filter_of_imp qo f _ himp]
    by_cases hqo : objHas qo f = true
    · rw [hqo, if_pos rfl]
    · have hqo0 : objHas qo f = false := by
        revert hqo
        cases objHas qo f <;> simp
      rw [hqo0]
      simp only [Bool.false_eq_true, if_false]
      rw [objGet_eq_undef_of_not_has hq0, objGet_eq_undef_of_not_has hqo0]

theorem foldl_concat_key (qs : List QObj) :
    qs.foldl (fun ck q => ck ++ jsToString (objGet q "key")) ""
      = String.join (qs.map (fun q => jsToString (objGet q "key"))) := by
  simp [String.join, List.foldl_map]

/-- C8: the transaction's targets are the queries each spread-merged
with the shared options (shared options winning on common field names),
its `panelId` is the coerced `format`, a dash, and the queries' `key`
fields concatenated in batch order, and its `queries` field is the
original unmerged batch with `done = false` and `latency = 0`. -/
theorem c8_buildQueryTransaction (genId : String) (queries : List QObj)
    (resultType : String) (queryOptions : QObj) (range : TimeRange)
    (queryIntervals : QueryIntervals) (scanning : Bool) :
    (buildQueryTransaction genId queries resultType queryOptions range
        queryIntervals scanning).options.targets
      = queries.map (fun q => mergeObj q queryOptions)
    ∧ (∀ (q : QObj) (f : String),
        objGet (mergeObj q queryOptions) f
          = if objHas queryOptions f then objGet queryOptions f
            else objGet q f)
    ∧ (buildQueryTransaction genId queries resultType queryOptions range
        queryIntervals scanning).options.panelId
      = jsToString (objGet queryOptions "format") ++ "-"
        ++ String.join (queries.map (fun q => jsToString (objGet q "key")))
    ∧ (buildQueryTransaction genId queries resultType queryOptions range
        queryIntervals scanning).queries = queries
    ∧ (buildQueryTransaction genId queries resultType queryOptions range
        queryIntervals scanning).done = false
    ∧ (buildQueryTransaction genId queries resultType queryOptions range
        queryIntervals scanning).latency = 0 := by
  refine ⟨rfl, fun q f => objGet_mergeObj q queryOptions f, ?_, rfl, rfl, rfl⟩
  show jsToString (objGet queryOptions "format") ++ "-"
      ++ queries.foldl (fun ck q => ck ++ jsToString (objGet q "key")) "" = _
  rw [foldl_concat_key]
